import Mathlib

/-!
Verification of the faiss partitioning subsystem
(src/faiss/utils/partitioning.cpp).

The development shallowly embeds the scalar fuzzy partitioner
(namespace partitioning), the vectorized uint16 partitioner
(namespace simd_partitioning, modelled per 16-bit lane), the driver
and the histogram builders.  Values and identifiers are modelled as
natural numbers; uint16 values live in [0, 65535].

The comparator classes CMin / CMax come from
faiss/utils/ordered_key_value.h, which is not part of the sources at
hand; they are modelled from the specification of the order policy
(spec section 4.1) together with the hard-coded sentinels that the
vectorized path in partitioning.cpp uses (0 and 0xffff, and the
thresh-- / thresh++ correction step that mirrors Crev::nextafter).
-/

namespace Faiss

/-- Modelled from the spec: the order policy of ordered_key_value.h
(not in src).  cmp a b is C::cmp(a,b): b is strictly better ranked
than a.  neutral is C::neutral(), the sentinel bounding the search
interval from the policy side; rev_neutral is C::Crev::neutral();
rev_nextafter is C::Crev::nextafter, one representable uint16 step as
used in the tie-correction (matching the vectorized path's thresh--
for CMax and thresh++ for CMin); is_max is C::is_max. -/
structure CParams where
  cmp : Nat → Nat → Bool
  neutral : Nat
  rev_neutral : Nat
  rev_nextafter : Nat → Nat
  is_max : Bool

/-- Modelled from the spec: CMax over uint16 (select-smallest policy):
cmp(a,b) = a > b, neutral = 0xffff, Crev = CMin with neutral 0 and
nextafter x = x - 1. -/
def CMaxU16 : CParams where
  cmp := fun a b => decide (b < a)
  neutral := 65535
  rev_neutral := 0
  rev_nextafter := fun x => x - 1
  is_max := true

/-- Modelled from the spec: CMin over uint16 (select-largest policy):
cmp(a,b) = a < b, neutral = 0, Crev = CMax with neutral 0xffff and
nextafter x = x + 1. -/
def CMinU16 : CParams where
  cmp := fun a b => decide (a < b)
  neutral := 0
  rev_neutral := 65535
  rev_nextafter := fun x => x + 1
  is_max := false

/-- partitioning::median3: median of three values using operator>. -/
def median3 (a b c : Nat) : Nat :=
  let p := if a > b then (b, a) else (a, b)
  if c > p.2 then p.2
  else if c > p.1 then c
  else p.1

/-- partitioning::count_lt_and_eq: one pass counting elements strictly
better than thresh (n_lt) and elements equal to thresh (n_eq), with
the source's else-if structure. -/
def count_lt_and_eq (C : CParams) (vs : List Nat) (thresh : Nat) : Nat × Nat :=
  vs.foldl
    (fun acc v =>
      if C.cmp thresh v then (acc.1 + 1, acc.2)
      else if v = thresh then (acc.1, acc.2 + 1)
      else acc)
    (0, 0)

/-- Index stream of partitioning::sample_threshold_median3: the scan
visits vals[(i * 6700417) % n] for i = 0..n-1 and collects up to three
values strictly inside (thresh_inf, thresh_sup) in policy order. -/
def sample_go (C : CParams) (vs : List Nat) (tinf tsup : Nat) :
    List Nat → List Nat → List Nat
  | [], acc => acc
  | i :: rest, acc =>
    if acc.length = 3 then acc
    else
      let v := vs.getD ((i * 6700417) % vs.length) 0
      if C.cmp v tinf && C.cmp tsup v then
        sample_go C vs tinf tsup rest (acc ++ [v])
      else
        sample_go C vs tinf tsup rest acc

/-- partitioning::sample_threshold_median3: median of three in-range
samples, or the single collected sample, or thresh_inf when the open
interval contains no value. -/
def sample_threshold_median3 (C : CParams) (vs : List Nat) (tinf tsup : Nat) : Nat :=
  let l := sample_go C vs tinf tsup (List.range vs.length) []
  if l.length = 3 then median3 (l.getD 0 0) (l.getD 1 0) (l.getD 2 0)
  else if l.length ≠ 0 then l.getD 0 0
  else tinf

/-- State of the in-place compress pass: current contents of the two
arrays, the write pointer wp, and the remaining budget of
threshold-equal elements to keep (the n_eq parameter). -/
structure CompSt where
  vs : List Nat
  ids : List Nat
  wp : Nat
  bud : Nat
  deriving Repr, DecidableEq

/-- Body of the loop of partitioning::compress_array at index i:
elements strictly better than thresh are copied to position wp;
elements equal to thresh are copied while the budget lasts. -/
def compress_body (C : CParams) (thresh : Nat) (st : CompSt) (i : Nat) : CompSt :=
  let v := st.vs.getD i 0
  if C.cmp thresh v then
    ⟨st.vs.set st.wp v, st.ids.set st.wp (st.ids.getD i 0), st.wp + 1, st.bud⟩
  else if 0 < st.bud ∧ v = thresh then
    ⟨st.vs.set st.wp v, st.ids.set st.wp (st.ids.getD i 0), st.wp + 1, st.bud - 1⟩
  else st

/-- partitioning::compress_array: left-to-right in-place compaction of
both arrays; returns the final arrays, wp, and the unconsumed equal
budget (the source asserts that the latter is 0). -/
def compress_array (C : CParams) (vs ids : List Nat) (thresh : Nat) (n_eq : Nat) : CompSt :=
  (List.range vs.length).foldl (compress_body C thresh) ⟨vs, ids, 0, n_eq⟩

/-- Functional description of the pairs kept by the compress pass: all
pairs whose value is strictly better than thresh plus the first
threshold-equal pairs while the budget lasts, in input order.  Returns
the kept pairs and the leftover budget. -/
def keptPairs (C : CParams) (thresh : Nat) :
    List (Nat × Nat) → Nat → List (Nat × Nat) × Nat
  | [], bud => ([], bud)
  | p :: rest, bud =>
    if C.cmp thresh p.1 then
      let r := keptPairs C thresh rest bud
      (p :: r.1, r.2)
    else if 0 < bud ∧ p.1 = thresh then
      let r := keptPairs C thresh rest (bud - 1)
      (p :: r.1, r.2)
    else keptPairs C thresh rest bud

/-- State of the bisection loop of partitioning::partition_fuzzy_median3:
current threshold, open search interval, the counts of the last pass,
the achieved q, and two flags: done (the loop exited) and hit (the
loop exited through one of the two target breaks that set q). -/
structure BisSt where
  th : Nat
  tinf : Nat
  tsup : Nat
  nlt : Nat
  neq : Nat
  q : Nat
  done : Bool
  hit : Bool
  deriving Repr, DecidableEq

/-- Resampling step at the bottom of the bisection loop: draw a new
threshold strictly inside the interval; when the sampler returns
thresh_inf the interval is exhausted and the loop exits without
setting q. -/
def bis_resample (C : CParams) (vs : List Nat) (st : BisSt) : BisSt :=
  let nt := sample_threshold_median3 C vs st.tinf st.tsup
  if nt = st.tinf then { st with done := true }
  else { st with th := nt }

/-- Decision stage of one bisection iteration, fed with the counts c
of the pass at the current threshold: break with q = q_min when
n_lt <= q_min <= n_lt + n_eq, break with q = n_lt when
q_min < n_lt <= q_max, otherwise tighten the matching interval bound
to the current threshold and resample. -/
def bis_decide (C : CParams) (vs : List Nat) (q_min q_max : Nat)
    (st : BisSt) (c : Nat × Nat) : BisSt :=
  if c.1 ≤ q_min then
    if q_min ≤ c.1 + c.2 then
      { st with nlt := c.1, neq := c.2, q := q_min, done := true, hit := true }
    else
      bis_resample C vs { st with nlt := c.1, neq := c.2, tinf := st.th }
  else if c.1 ≤ q_max then
    { st with nlt := c.1, neq := c.2, q := c.1, done := true, hit := true }
  else
    bis_resample C vs { st with nlt := c.1, neq := c.2, tsup := st.th }

/-- One iteration of the bisection loop of
partitioning::partition_fuzzy_median3. -/
def bis_step (C : CParams) (vs : List Nat) (q_min q_max : Nat) (st : BisSt) : BisSt :=
  if st.done then st
  else bis_decide C vs q_min q_max st (count_lt_and_eq C vs st.th)

/-- The bisection loop, fuelled with the source's iteration cap 200. -/
def bis_loop (C : CParams) (vs : List Nat) (q_min q_max : Nat) :
    Nat → BisSt → BisSt
  | 0, st => st
  | fuel + 1, st => bis_loop C vs q_min q_max fuel (bis_step C vs q_min q_max st)

/-- Initial state of the bisection loop: threshold seeded with the
median of vals[0], vals[n/2], vals[n-1], interval
(Crev::neutral, C::neutral). -/
def bisInit (C : CParams) (vs : List Nat) : BisSt :=
  ⟨median3 (vs.getD 0 0) (vs.getD (vs.length / 2) 0) (vs.getD (vs.length - 1) 0),
   C.rev_neutral, C.neutral, 0, 0, 0, false, false⟩

/-- State of the bisection loop when it exits (by break or after the
200-iteration cap). -/
def bisFinal (C : CParams) (vs : List Nat) (q_min q_max : Nat) : BisSt :=
  bis_loop C vs q_min q_max 200 (bisInit C vs)

/-- Observable result of one partitioner call: returned threshold and
achieved q, the two arrays after the call, the count wp actually
written by the compress pass, the unconsumed equal budget (the source
asserts leftover = 0 and wp = q), whether the bisection loop exited
through a target break, and whether the call threw
(FAISS_THROW_IF_NOT(n >= 3)). -/
structure PartRes where
  thresh : Nat
  q : Nat
  outVals : List Nat
  outIds : List Nat
  wp : Nat
  leftover : Nat
  hit : Bool
  err : Bool
  deriving Repr, DecidableEq

/-- Tie-correction after the bisection loop: n_eq_1 = q - n_lt is
negative exactly when q < n_lt; in that case force q = q_min, step the
threshold one representable value through C::Crev::nextafter and set
the equal budget to q.  Returns (q, thresh, budget). -/
def tieCorrect (C : CParams) (q_min : Nat) (st : BisSt) : Nat × Nat × Nat :=
  if st.q < st.nlt then (q_min, C.rev_nextafter st.th, q_min)
  else (st.q, st.th, st.q - st.nlt)

/-- Non-shortcut body of partitioning::partition_fuzzy_median3: seed
the threshold with the median of vals[0], vals[n/2], vals[n-1], run
the bisection loop with fuel 200, apply the tie-correction, then
compress the arrays in place. -/
def partitionCore (C : CParams) (vs ids : List Nat) (q_min q_max : Nat) : PartRes :=
  let st := bisFinal C vs q_min q_max
  let c := tieCorrect C q_min st
  let comp := compress_array C vs ids c.2.1 c.2.2
  ⟨c.2.1, c.1, comp.vs, comp.ids, comp.wp, comp.bud, st.hit, false⟩

/-- partitioning::partition_fuzzy_median3.  The q_min == 0 shortcut
reproduces the source exactly: it stores C::Crev::neutral() into q_out
and returns 0 as the threshold.  The q_max >= n shortcut stores q_max
and returns C::neutral().  Otherwise n >= 3 is required (else the call
throws, FAISS_THROW_IF_NOT) and the bisection body runs. -/
def partitionRun (C : CParams) (vs ids : List Nat) (q_min q_max : Nat) : PartRes :=
  if q_min = 0 then ⟨0, C.rev_neutral, vs, ids, 0, 0, true, false⟩
  else if vs.length ≤ q_max then ⟨C.neutral, q_max, vs, ids, 0, 0, true, false⟩
  else if vs.length < 3 then ⟨0, 0, vs, ids, 0, 0, false, true⟩
  else partitionCore C vs ids q_min q_max

/-! Vectorized path (simd_partitioning, AVX2).  The 16-lane intrinsics
are modelled per lane: each full block of 16 elements is classified
exactly as the movemask/popcount code classifies its lanes. -/

/-- simd_partitioning::find_minimax: elementwise min/max reduction with
accumulators initialized to 0xffff and 0. -/
def find_minimax (vs : List Nat) : Nat × Nat :=
  (vs.foldl Nat.min 65535, vs.foldl Nat.max 0)

/-- simd_partitioning::count_lt_and_eq: per full block of 16 lanes,
n_eq gains the number of lanes equal to thresh and n_lt gains 16 minus
the number of lanes where v equals max_func(v, thresh) (that is, v is
not strictly better); the tail is the scalar else-if loop. -/
def simd_count_lt_and_eq (C : CParams) (vs : List Nat) (thresh : Nat) : Nat × Nat :=
  let n1 := vs.length / 16
  let blockAcc := (List.range n1).foldl
    (fun acc i =>
      let blk := (vs.drop (16 * i)).take 16
      let i_eq := blk.countP (fun v => v == thresh)
      let i_ge := blk.countP
        (fun v => v == (if C.is_max then Nat.max v thresh else Nat.min v thresh))
      (acc.1 + (16 - i_ge), acc.2 + i_eq))
    (0, 0)
  (vs.drop (16 * n1)).foldl
    (fun acc v =>
      if C.cmp thresh v then (acc.1 + 1, acc.2)
      else if v = thresh then (acc.1, acc.2 + 1)
      else acc)
    blockAcc

/-- Body of the lt-only block phase of
simd_partitioning::simd_compress_array: after the equal budget is
exhausted only strictly better elements are kept. -/
def compress_lt_body (C : CParams) (thresh : Nat) (st : CompSt) (i : Nat) : CompSt :=
  let v := st.vs.getD i 0
  if C.cmp thresh v then
    ⟨st.vs.set st.wp v, st.ids.set st.wp (st.ids.getD i 0), st.wp + 1, st.bud⟩
  else st

/-- Full blocks of simd_partitioning::simd_compress_array: while the
equal budget is positive a block keeps strictly better lanes and
budgeted equal lanes in lane order; afterwards blocks keep only
strictly better lanes. -/
def simdCompressBlocks (C : CParams) (thresh : Nat) :
    Nat → Nat → CompSt → CompSt
  | 0, _, st => st
  | nb + 1, i0, st =>
    let st' :=
      if 0 < st.bud then (List.range' i0 16).foldl (compress_body C thresh) st
      else (List.range' i0 16).foldl (compress_lt_body C thresh) st
    simdCompressBlocks C thresh nb (i0 + 16) st'

/-- simd_partitioning::simd_compress_array: block phases followed by
the scalar tail loop over the remaining indices. -/
def simd_compress_array (C : CParams) (vs ids : List Nat) (thresh : Nat) (n_eq : Nat) : CompSt :=
  let n := vs.length
  let n1 := n / 16
  let st := simdCompressBlocks C thresh n1 0 ⟨vs, ids, 0, n_eq⟩
  (List.range' (16 * n1) (n - 16 * n1)).foldl (compress_body C thresh) st

/-- State of the value-domain binary search of
simd_partitioning::simd_partition_fuzzy_with_bounds: half-open value
interval [s0, s1), last threshold and counts, achieved q, and the
done/hit flags as in the scalar loop. -/
structure SimdSt where
  s0 : Nat
  s1 : Nat
  th : Nat
  nlt : Nat
  neq : Nat
  q : Nat
  done : Bool
  hit : Bool
  deriving Repr, DecidableEq

/-- Decision stage of one binary-search iteration, fed with the
midpoint threshold and the counts of the vectorized pass. -/
def simd_decide (C : CParams) (q_min q_max : Nat) (st : SimdSt)
    (th : Nat) (c : Nat × Nat) : SimdSt :=
  if c.1 ≤ q_min then
    if q_min ≤ c.1 + c.2 then
      { st with th := th, nlt := c.1, neq := c.2, q := q_min, done := true, hit := true }
    else if C.is_max then { st with th := th, nlt := c.1, neq := c.2, s0 := th }
    else { st with th := th, nlt := c.1, neq := c.2, s1 := th }
  else if c.1 ≤ q_max then
    { st with th := th, nlt := c.1, neq := c.2, q := c.1, done := true, hit := true }
  else if C.is_max then { st with th := th, nlt := c.1, neq := c.2, s1 := th }
  else { st with th := th, nlt := c.1, neq := c.2, s0 := th }

/-- One iteration of the binary-search loop of
simd_partitioning::simd_partition_fuzzy_with_bounds: the threshold is
the midpoint of [s0, s1) and the interval bound moved on a miss
depends on C::is_max. -/
def simd_step (C : CParams) (vs : List Nat) (q_min q_max : Nat) (st : SimdSt) : SimdSt :=
  if st.done then st
  else
    simd_decide C q_min q_max st ((st.s0 + st.s1) / 2)
      (simd_count_lt_and_eq C vs ((st.s0 + st.s1) / 2))

/-- The binary-search loop, fuelled with the source's cap 200. -/
def simd_loop (C : CParams) (vs : List Nat) (q_min q_max : Nat) :
    Nat → SimdSt → SimdSt
  | 0, st => st
  | fuel + 1, st => simd_loop C vs q_min q_max fuel (simd_step C vs q_min q_max st)

/-- State of the binary-search loop when it exits. -/
def simdFinal (C : CParams) (vs : List Nat) (q_min q_max s0i s1i : Nat) : SimdSt :=
  simd_loop C vs q_min q_max 200 ⟨s0i, s1i + 1, 0, 0, 0, 0, false, false⟩

/-- Tie-correction of the vectorized path: same structure as the
scalar one, with the threshold stepped by thresh-- (CMax) or thresh++
(CMin). -/
def simdTieCorrect (C : CParams) (q_min : Nat) (st : SimdSt) : Nat × Nat × Nat :=
  if st.q < st.nlt then (q_min, if C.is_max then st.th - 1 else st.th + 1, q_min)
  else (st.q, st.th, st.q - st.nlt)

/-- Non-shortcut body of
simd_partitioning::simd_partition_fuzzy_with_bounds: binary search
over [s0i, s1i + 1) with fuel 200, tie-correction, and the vectorized
compress pass. -/
def simdCore (C : CParams) (vs ids : List Nat) (q_min q_max s0i s1i : Nat) : PartRes :=
  let st := simdFinal C vs q_min q_max s0i s1i
  let c := simdTieCorrect C q_min st
  let comp := simd_compress_array C vs ids c.2.1 c.2.2
  ⟨c.2.1, c.1, comp.vs, comp.ids, comp.wp, comp.bud, st.hit, false⟩

/-- simd_partitioning::simd_partition_fuzzy_with_bounds: trivial
shortcuts (q_min == 0 returns threshold 0 and q 0; q_max >= n returns
0xffff and q_max; s0i == s1i returns the common value and q_min), then
the binary-search body. -/
def simd_partition_fuzzy_with_bounds (C : CParams) (vs ids : List Nat)
    (q_min q_max s0i s1i : Nat) : PartRes :=
  if q_min = 0 then ⟨0, 0, vs, ids, 0, 0, true, false⟩
  else if vs.length ≤ q_max then ⟨65535, q_max, vs, ids, 0, 0, true, false⟩
  else if s0i = s1i then ⟨s0i, q_min, vs, ids, 0, 0, true, false⟩
  else simdCore C vs ids q_min q_max s0i s1i

/-- simd_partitioning::simd_partition_fuzzy: min/max reduction then the
bounded search. -/
def simd_partition_fuzzy (C : CParams) (vs ids : List Nat) (q_min q_max : Nat) : PartRes :=
  let mm := find_minimax vs
  simd_partition_fuzzy_with_bounds C vs ids q_min q_max mm.1 mm.2

/-- simd_partitioning::simd_partition: exact-selection form with its
own q == 0 and q >= n shortcuts. -/
def simd_partition (C : CParams) (vs ids : List Nat) (q : Nat) : PartRes :=
  if q = 0 then ⟨0, 0, vs, ids, 0, 0, true, false⟩
  else if vs.length ≤ q then ⟨65535, q, vs, ids, 0, 0, true, false⟩
  else
    let mm := find_minimax vs
    simd_partition_fuzzy_with_bounds C vs ids q q mm.1 mm.2

/-- faiss::partition_fuzzy driver at uint16 with AVX2 compiled in: the
vectorized path runs when the values buffer is 32-byte aligned
(alignment is not representable in the embedding and is passed as a
flag), otherwise the scalar path runs. -/
def partition_fuzzy_u16 (C : CParams) (aligned : Bool) (vs ids : List Nat)
    (q_min q_max : Nat) : PartRes :=
  if aligned then simd_partition_fuzzy C vs ids q_min q_max
  else partitionRun C vs ids q_min q_max

/-! Histogram builders.  The bit-trick accumulation of
faiss::simd_histogram_8 / _16 is modelled per element: each element of
a full 16-lane block contributes, through the pshufb table decode, to
the set of buckets given below; the scalar tails follow the source
loops directly. -/

/-- Reinterpretation of an integer as uint16 (the C conversions to
uint16_t). -/
def u16 (x : Int) : Nat := (x % 65536).toNat

/-- Reinterpretation of a uint16 bit pattern as int16 (the C
conversion int16_t vs = v). -/
def i16 (d : Nat) : Int :=
  if d % 65536 < 32768 then (d % 65536 : Int) else (d % 65536 : Int) - 65536

/-- Arithmetic (signed) shift right by s, as floor division. -/
def asr (x : Int) (s : Nat) : Int := Int.fdiv x (2 ^ s)

/-- Bucket mapping of PreprocMinShift and of the scalar tails of the
shifted histogram mode: v = uint16(data - min), vs = int16(v),
vs >>= shift (signed), then reinterpreted as uint16. -/
def mapShift (minv s v : Nat) : Nat := u16 (asr (i16 (u16 ((v : Int) - (minv : Int)))) s)

/-- The 32-byte shuffle table of the 8-bin histogram (both 16-byte
lanes hold the same 16 entries). -/
def table8 : List Nat := [1, 16, 0, 0, 4, 64, 0, 0, 0, 0, 1, 16, 0, 0, 4, 64]

/-- pshufb semantics per byte: a table index with its high bit set
yields 0, otherwise the low four bits select the table entry. -/
def pshufb (tab : List Nat) (i : Nat) : Nat :=
  if 128 ≤ i % 256 then 0 else tab.getD (i % 16) 0

/-- Buckets incremented by one element with mapped 16-bit value v in
the vectorized 8-bin path: the lane index is v | (v << 8) | 0x800, so
the low table byte is v mod 256 and the high table byte is
(v >> 8) | (v mod 256) | 8; a low-byte table hit of 1/4/16/64 lands in
bucket 0/4/1/5 and a high-byte hit in bucket 2/6/3/7 (the positions of
the corresponding 2-bit accumulator fields). -/
def contrib8 (v : Nat) : List Nat :=
  (match pshufb table8 (v % 256) with
   | 1 => [0] | 4 => [4] | 16 => [1] | 64 => [5] | _ => []) ++
  (match pshufb table8 (Nat.lor (v / 256) (Nat.lor (v % 256) 8)) with
   | 1 => [2] | 4 => [6] | 16 => [3] | 64 => [7] | _ => [])

/-- The shuffle table of the 16-bin histogram. -/
def table16 : List Nat := [1, 2, 4, 8, 16, 32, 64, 128, 1, 2, 4, 8, 16, 32, 64, 128]

/-- Decoding of a one-hot byte of the 16-bin accumulator into its
bucket index. -/
def bit_bucket : Nat → List Nat
  | 1 => [0] | 2 => [1] | 4 => [2] | 8 => [3]
  | 16 => [4] | 32 => [5] | 64 => [6] | 128 => [7]
  | _ => []

/-- Buckets incremented by one element with mapped 16-bit value v in
the vectorized 16-bin path: the lane index is v | (v << 8); the low
table byte counts when v < 8 and the high byte counts otherwise (the
lt8 mask split), shifted into buckets 8..15; with clipping
(PreprocMinShift::do_clip) any v >= 16 is dropped first. -/
def contrib16 (clip : Bool) (v : Nat) : List Nat :=
  if clip ∧ ¬ v % 65536 < 16 then []
  else if v % 65536 < 8 then bit_bucket (pshufb table16 (v % 256))
  else (bit_bucket (pshufb table16 (Nat.lor (v / 256) (v % 256) % 256))).map (· + 8)

/-- Unbounded 8-bin histogram (faiss::simd_histogram_8 with shift < 0):
full blocks go through the vectorized table decode on the raw value,
the tail does hist[data[i]]++ (well-defined for data in [0,8)). -/
def simd_histogram_8_unbounded (data : List Nat) : List Nat :=
  let m := data.length - data.length % 16
  (List.range 8).map fun k =>
    ((data.take m).countP fun v => (contrib8 v).contains k) +
    ((data.drop m).countP fun v => v == k)

/-- Shifted 8-bin histogram: full blocks go through the vectorized
table decode of the mapped value, the tail keeps mapped values below
8. -/
def simd_histogram_8_shifted (data : List Nat) (minv s : Nat) : List Nat :=
  let m := data.length - data.length % 16
  (List.range 8).map fun k =>
    ((data.take m).countP fun v => (contrib8 (mapShift minv s v)).contains k) +
    ((data.drop m).countP fun v => mapShift minv s v == k)

/-- faiss::simd_histogram_8: shift < 0 selects the unbounded mode,
shifts 0..8 are dispatched, anything larger throws
(FAISS_THROW_FMT). -/
def simd_histogram_8 (data : List Nat) (minv : Nat) (shift : Int) : Except Unit (List Nat) :=
  if shift < 0 then .ok (simd_histogram_8_unbounded data)
  else if shift ≤ 8 then .ok (simd_histogram_8_shifted data minv shift.toNat)
  else .error ()

/-- Unbounded 16-bin histogram (faiss::simd_histogram_16 with
shift < 0). -/
def simd_histogram_16_unbounded (data : List Nat) : List Nat :=
  let m := data.length - data.length % 16
  (List.range 16).map fun k =>
    ((data.take m).countP fun v => (contrib16 false v).contains k) +
    ((data.drop m).countP fun v => v == k)

/-- Shifted 16-bin histogram: the vectorized part clips mapped values
at 16 (PreprocMinShift::do_clip), the tail keeps mapped values below
16. -/
def simd_histogram_16_shifted (data : List Nat) (minv s : Nat) : List Nat :=
  let m := data.length - data.length % 16
  (List.range 16).map fun k =>
    ((data.take m).countP fun v => (contrib16 true (mapShift minv s v)).contains k) +
    ((data.drop m).countP fun v => mapShift minv s v == k)

/-- faiss::simd_histogram_16: same dispatch as the 8-bin driver. -/
def simd_histogram_16 (data : List Nat) (minv : Nat) (shift : Int) : Except Unit (List Nat) :=
  if shift < 0 then .ok (simd_histogram_16_unbounded data)
  else if shift ≤ 8 then .ok (simd_histogram_16_shifted data minv shift.toNat)
  else .error ()

/-! List helpers used by the compress-pass characterization. -/

theorem getD_append (A B : List Nat) (i : Nat) (h : A.length ≤ i) :
    (A ++ B).getD i 0 = B.getD (i - A.length) 0 := by
  induction A generalizing i with
  | nil => simp
  | cons a A ih =>
    cases i with
    | zero => simp at h
    | succ i =>
      simp only [List.cons_append, List.getD_cons_succ, List.length_cons]
      rw [ih i (by simpa using h)]
      congr 1
      omega

theorem getD_drop (vs : List Nat) (k j : Nat) : (vs.drop k).getD j 0 = vs.getD (k + j) 0 := by
  rw [List.getD_eq_getElem?_getD, List.getElem?_drop, List.getD_eq_getElem?_getD]

theorem getD_append_drop (A vs : List Nat) (k i : Nat) (hA : A.length = k)
    (hk : k ≤ i) : (A ++ vs.drop k).getD i 0 = vs.getD i 0 := by
  rw [getD_append _ _ _ (by omega), hA, getD_drop]
  congr 1
  omega

theorem set_append_len (A B : List Nat) (v : Nat) (hB : B ≠ []) :
    (A ++ B).set A.length v = A ++ [v] ++ B.tail := by
  induction A with
  | nil =>
    cases B with
    | nil => simp at hB
    | cons b B => simp
  | cons a A ih => simp [ih]

theorem set_append_drop (A vs : List Nat) (k : Nat) (v : Nat) (hA : A.length = k)
    (hk : k < vs.length) : (A ++ vs.drop k).set k v = A ++ [v] ++ vs.drop (k + 1) := by
  subst hA
  have hne : vs.drop A.length ≠ [] := by
    have hlen : (vs.drop A.length).length = vs.length - A.length := List.length_drop _ _
    intro hcon
    rw [hcon] at hlen
    simp at hlen
    omega
  rw [set_append_len A _ v hne, List.tail_drop]

theorem zip_map_fst_snd : ∀ (l : List (Nat × Nat)), (l.map Prod.fst).zip (l.map Prod.snd) = l
  | [] => rfl
  | p :: l => by simp [zip_map_fst_snd l]

theorem countP_zip_fst (vs ids : List Nat) (hlen : ids.length = vs.length) (f : Nat → Bool) :
    (vs.zip ids).countP (fun p => f p.1) = vs.countP f := by
  have h1 : (vs.zip ids).map Prod.fst = vs := List.map_fst_zip vs ids (by omega)
  calc (vs.zip ids).countP (fun p => f p.1)
      = ((vs.zip ids).map Prod.fst).countP f := by
        rw [List.countP_map]
        rfl
    _ = vs.countP f := by rw [h1]

/-! Characterization of the counting pass. -/

theorem count_fold_acc (C : CParams) (t : Nat) :
    ∀ (vs : List Nat) (acc : Nat × Nat),
      vs.foldl
        (fun acc v =>
          if C.cmp t v then (acc.1 + 1, acc.2)
          else if v = t then (acc.1, acc.2 + 1)
          else acc)
        acc =
      (acc.1 + vs.countP (fun v => C.cmp t v),
       acc.2 + vs.countP (fun v => !C.cmp t v && v == t)) := by
  intro vs
  induction vs with
  | nil => intro acc; simp
  | cons v vs ih =>
    intro acc
    simp only [List.foldl_cons, List.countP_cons]
    by_cases h1 : C.cmp t v
    · rw [if_pos h1, ih, if_pos (by simpa using h1),
        if_neg (by simp [h1] : ¬ ((!C.cmp t v && v == t) = true))]
      exact Prod.ext (by omega) (by omega)
    · rw [if_neg h1]
      by_cases h2 : v = t
      · subst h2
        rw [if_neg h1, if_pos rfl, ih,
          if_pos (show (!C.cmp v v && v == v) = true by simp [h1])]
        exact Prod.ext (by omega) (by omega)
      · rw [if_neg h2, ih, if_neg (by simpa using h1),
          if_neg (by simp [h1, h2] : ¬ ((!C.cmp t v && v == t) = true))]
        exact Prod.ext (by omega) (by omega)

theorem count_lt_and_eq_eq (C : CParams) (vs : List Nat) (t : Nat) :
    count_lt_and_eq C vs t =
      (vs.countP (fun v => C.cmp t v), vs.countP (fun v => !C.cmp t v && v == t)) := by
  unfold count_lt_and_eq
  rw [count_fold_acc]
  exact Prod.ext (by simp) (by simp)

/-! Properties of the functional description of the kept pairs. -/

theorem keptPairs_sublist (C : CParams) (t : Nat) :
    ∀ (l : List (Nat × Nat)) (b : Nat), (keptPairs C t l b).1.Sublist l := by
  intro l
  induction l with
  | nil => intro b; simp [keptPairs]
  | cons p rest ih =>
    intro b
    simp only [keptPairs]
    by_cases h1 : C.cmp t p.1
    · rw [if_pos h1]
      exact (ih b).cons₂ p
    · rw [if_neg h1]
      by_cases h2 : 0 < b ∧ p.1 = t
      · rw [if_pos h2]
        exact (ih (b - 1)).cons₂ p
      · rw [if_neg h2]
        exact (ih b).cons p

theorem keptPairs_length_le (C : CParams) (t : Nat) (l : List (Nat × Nat)) (b : Nat) :
    (keptPairs C t l b).1.length ≤ l.length :=
  (keptPairs_sublist C t l b).length_le

theorem keptPairs_mem (C : CParams) (t : Nat) :
    ∀ (l : List (Nat × Nat)) (b : Nat) (p : Nat × Nat),
      p ∈ (keptPairs C t l b).1 → C.cmp t p.1 = true ∨ p.1 = t := by
  intro l
  induction l with
  | nil => intro b p hp; simp [keptPairs] at hp
  | cons q rest ih =>
    intro b p hp
    simp only [keptPairs] at hp
    by_cases h1 : C.cmp t q.1
    · rw [if_pos h1] at hp
      rcases List.mem_cons.mp hp with h | h
      · subst h; exact Or.inl h1
      · exact ih b p h
    · rw [if_neg h1] at hp
      by_cases h2 : 0 < b ∧ q.1 = t
      · rw [if_pos h2] at hp
        rcases List.mem_cons.mp hp with h | h
        · subst h; exact Or.inr h2.2
        · exact ih (b - 1) p h
      · rw [if_neg h2] at hp
        exact ih b p hp

theorem keptPairs_append (C : CParams) (t : Nat) :
    ∀ (l1 l2 : List (Nat × Nat)) (b : Nat),
      keptPairs C t (l1 ++ l2) b =
        ((keptPairs C t l1 b).1 ++ (keptPairs C t l2 (keptPairs C t l1 b).2).1,
         (keptPairs C t l2 (keptPairs C t l1 b).2).2) := by
  intro l1
  induction l1 with
  | nil => intro l2 b; simp [keptPairs]
  | cons p rest ih =>
    intro l2 b
    simp only [List.cons_append, keptPairs, List.append_eq]
    by_cases h1 : C.cmp t p.1
    · simp only [if_pos h1, ih, List.cons_append]
    · simp only [if_neg h1]
      by_cases h2 : 0 < b ∧ p.1 = t
      · simp only [if_pos h2, ih, List.cons_append]
      · simp only [if_neg h2, ih]

theorem keptPairs_length (C : CParams) (t : Nat) :
    ∀ (l : List (Nat × Nat)) (b : Nat),
      (keptPairs C t l b).1.length =
        l.countP (fun p => C.cmp t p.1) +
          min (l.countP (fun p => !C.cmp t p.1 && p.1 == t)) b := by
  intro l
  induction l with
  | nil => intro b; simp [keptPairs]
  | cons p rest ih =>
    intro b
    by_cases h1 : C.cmp t p.1
    · have hlt : (p :: rest).countP (fun p => C.cmp t p.1) =
          rest.countP (fun p => C.cmp t p.1) + 1 := by
        rw [List.countP_cons]
        simp [h1]
      have heq : (p :: rest).countP (fun p => !C.cmp t p.1 && p.1 == t) =
          rest.countP (fun p => !C.cmp t p.1 && p.1 == t) := by
        rw [List.countP_cons]
        simp [h1]
      rw [hlt, heq]
      simp only [keptPairs, if_pos h1, List.length_cons, ih]
      omega
    · have hc : C.cmp t p.1 = false := by simpa using h1
      have hlt : (p :: rest).countP (fun p => C.cmp t p.1) =
          rest.countP (fun p => C.cmp t p.1) := by
        rw [List.countP_cons]
        simp [hc]
      by_cases h3 : p.1 = t
      · have heq : (p :: rest).countP (fun p => !C.cmp t p.1 && p.1 == t) =
            rest.countP (fun p => !C.cmp t p.1 && p.1 == t) + 1 := by
          have hp2 : (!C.cmp t p.1 && p.1 == t) = true := by
            rw [hc, h3]
            simp
          rw [List.countP_cons, hp2]
          simp
        rw [hlt, heq]
        by_cases hb : 0 < b
        · simp only [keptPairs, if_neg h1, if_pos (And.intro hb h3), List.length_cons, ih]
          omega
        · have hb0 : b = 0 := by omega
          subst hb0
          simp only [keptPairs, if_neg h1,
            if_neg (by simp : ¬ ((0 : Nat) < 0 ∧ p.1 = t)), ih]
          omega
      · have heq : (p :: rest).countP (fun p => !C.cmp t p.1 && p.1 == t) =
            rest.countP (fun p => !C.cmp t p.1 && p.1 == t) := by
          rw [List.countP_cons]
          simp [hc, h3]
        rw [hlt, heq]
        simp only [keptPairs, if_neg h1,
          if_neg (by simp [h3] : ¬ (0 < b ∧ p.1 = t)), ih]


/-! Characterization of the in-place compress pass: the final arrays
are the kept prefix followed by the untouched tail of the originals,
wp is the number of kept pairs, and the leftover budget is the one
computed by keptPairs. -/

theorem compress_fold_spec (C : CParams) (t : Nat) (vs ids : List Nat)
    (hlen : ids.length = vs.length) :
    ∀ (m i : Nat), i + m ≤ vs.length →
      ∀ (kp : List (Nat × Nat)) (b : Nat), kp.length ≤ i →
        (List.range' i m).foldl (compress_body C t)
            ⟨kp.map Prod.fst ++ vs.drop kp.length, kp.map Prod.snd ++ ids.drop kp.length,
             kp.length, b⟩ =
          ⟨(kp ++ (keptPairs C t (((vs.drop i).take m).zip ((ids.drop i).take m)) b).1).map
                Prod.fst ++
              vs.drop (kp ++ (keptPairs C t (((vs.drop i).take m).zip ((ids.drop i).take m)) b).1).length,
            (kp ++ (keptPairs C t (((vs.drop i).take m).zip ((ids.drop i).take m)) b).1).map
                Prod.snd ++
              ids.drop (kp ++ (keptPairs C t (((vs.drop i).take m).zip ((ids.drop i).take m)) b).1).length,
            (kp ++ (keptPairs C t (((vs.drop i).take m).zip ((ids.drop i).take m)) b).1).length,
            (keptPairs C t (((vs.drop i).take m).zip ((ids.drop i).take m)) b).2⟩ := by
  intro m
  induction m with
  | zero =>
    intro i hi kp b hk
    simp [keptPairs]
  | succ m ih =>
    intro i hi kp b hk
    have hiv : i < vs.length := by omega
    have hii : i < ids.length := by omega
    have hdv : vs.drop i = vs[i] :: vs.drop (i + 1) := List.drop_eq_getElem_cons hiv
    have hdi : ids.drop i = ids[i] :: ids.drop (i + 1) := List.drop_eq_getElem_cons hii
    have hzip : ((vs.drop i).take (m + 1)).zip ((ids.drop i).take (m + 1)) =
        (vs[i], ids[i]) :: (((vs.drop (i + 1)).take m).zip ((ids.drop (i + 1)).take m)) := by
      rw [hdv, hdi, List.take_succ_cons, List.take_succ_cons, List.zip_cons_cons]
    rw [List.range'_succ, List.foldl_cons, hzip]
    have hvread : (kp.map Prod.fst ++ vs.drop kp.length).getD i 0 = vs[i] := by
      rw [getD_append_drop _ _ _ _ (by simp) hk, List.getD_eq_getElem vs 0 hiv]
    have hiread : (kp.map Prod.snd ++ ids.drop kp.length).getD i 0 = ids[i] := by
      rw [getD_append_drop _ _ _ _ (by simp) hk, List.getD_eq_getElem ids 0 hii]
    show (List.range' (i + 1) m).foldl (compress_body C t)
        (compress_body C t ⟨_, _, _, _⟩ i) = _
    rw [compress_body]
    simp only [hvread, hiread]
    by_cases h1 : C.cmp t vs[i]
    · rw [if_pos h1]
      have hset : (kp.map Prod.fst ++ vs.drop kp.length).set kp.length vs[i] =
          (kp ++ [(vs[i], ids[i])]).map Prod.fst ++ vs.drop (kp ++ [(vs[i], ids[i])]).length := by
        rw [set_append_drop _ _ _ _ (by simp) (by omega)]
        simp
      have hseti : (kp.map Prod.snd ++ ids.drop kp.length).set kp.length ids[i] =
          (kp ++ [(vs[i], ids[i])]).map Prod.snd ++ ids.drop (kp ++ [(vs[i], ids[i])]).length := by
        rw [set_append_drop _ _ _ _ (by simp) (by omega)]
        simp
      have hwp : kp.length + 1 = (kp ++ [(vs[i], ids[i])]).length := by simp
      rw [hset, hseti, hwp,
        ih (i + 1) (by omega) (kp ++ [(vs[i], ids[i])]) b (by simp; omega)]
      rw [keptPairs]
      rw [if_pos h1]
      simp [List.append_assoc]
    · rw [if_neg h1]
      by_cases h2 : 0 < b ∧ vs[i] = t
      · rw [if_pos h2]
        have hset : (kp.map Prod.fst ++ vs.drop kp.length).set kp.length vs[i] =
            (kp ++ [(vs[i], ids[i])]).map Prod.fst ++ vs.drop (kp ++ [(vs[i], ids[i])]).length := by
          rw [set_append_drop _ _ _ _ (by simp) (by omega)]
          simp
        have hseti : (kp.map Prod.snd ++ ids.drop kp.length).set kp.length ids[i] =
            (kp ++ [(vs[i], ids[i])]).map Prod.snd ++ ids.drop (kp ++ [(vs[i], ids[i])]).length := by
          rw [set_append_drop _ _ _ _ (by simp) (by omega)]
          simp
        have hwp : kp.length + 1 = (kp ++ [(vs[i], ids[i])]).length := by simp
        rw [hset, hseti, hwp,
          ih (i + 1) (by omega) (kp ++ [(vs[i], ids[i])]) (b - 1) (by simp; omega)]
        rw [keptPairs]
        rw [if_neg h1, if_pos h2]
        simp [List.append_assoc]
      · rw [if_neg h2]
        rw [ih (i + 1) (by omega) kp b (by omega)]
        rw [keptPairs]
        rw [if_neg h1, if_neg h2]

theorem compress_array_spec (C : CParams) (t : Nat) (vs ids : List Nat) (b : Nat)
    (hlen : ids.length = vs.length) :
    compress_array C vs ids t b =
      ⟨(keptPairs C t (vs.zip ids) b).1.map Prod.fst ++
          vs.drop (keptPairs C t (vs.zip ids) b).1.length,
        (keptPairs C t (vs.zip ids) b).1.map Prod.snd ++
          ids.drop (keptPairs C t (vs.zip ids) b).1.length,
        (keptPairs C t (vs.zip ids) b).1.length,
        (keptPairs C t (vs.zip ids) b).2⟩ := by
  unfold compress_array
  rw [List.range_eq_range']
  have h := compress_fold_spec C t vs ids hlen vs.length 0 (by omega) [] b (by simp)
  simp only [List.map_nil, List.nil_append, List.length_nil, List.drop_zero,
    List.take_length] at h
  have hti : ids.take vs.length = ids := by
    rw [← hlen]
    exact List.take_length ids
  rw [h, hti]


/-! Invariants of the bisection loop. -/

/-- Soundness of a loop state: whenever the hit flag is set, the loop
has exited through a target break, the stored counts are the counts of
the stored threshold, and q satisfies the break condition that fired. -/
def bisOk (C : CParams) (vs : List Nat) (q_min q_max : Nat) (st : BisSt) : Prop :=
  st.hit = true → st.done = true ∧
    count_lt_and_eq C vs st.th = (st.nlt, st.neq) ∧
    ((st.q = q_min ∧ st.nlt ≤ q_min ∧ q_min ≤ st.nlt + st.neq) ∨
     (st.q = st.nlt ∧ q_min < st.nlt ∧ st.nlt ≤ q_max))

theorem bis_resample_hit (C : CParams) (vs : List Nat) (st : BisSt) :
    (bis_resample C vs st).hit = st.hit := by
  by_cases h : sample_threshold_median3 C vs st.tinf st.tsup = st.tinf <;>
    simp [bis_resample, h]

theorem bis_resample_q (C : CParams) (vs : List Nat) (st : BisSt) :
    (bis_resample C vs st).q = st.q := by
  by_cases h : sample_threshold_median3 C vs st.tinf st.tsup = st.tinf <;>
    simp [bis_resample, h]

theorem bis_decide_ok (C : CParams) (vs : List Nat) (q_min q_max : Nat)
    (st : BisSt) (hhit : st.hit = false) :
    bisOk C vs q_min q_max (bis_decide C vs q_min q_max st (count_lt_and_eq C vs st.th)) := by
  unfold bis_decide
  by_cases h1 : (count_lt_and_eq C vs st.th).1 ≤ q_min
  · rw [if_pos h1]
    by_cases h2 : q_min ≤ (count_lt_and_eq C vs st.th).1 + (count_lt_and_eq C vs st.th).2
    · rw [if_pos h2]
      intro _
      exact ⟨rfl, rfl, Or.inl ⟨rfl, h1, h2⟩⟩
    · rw [if_neg h2]
      intro habs
      rw [bis_resample_hit] at habs
      simp at habs
      rw [habs] at hhit
      cases hhit
  · rw [if_neg h1]
    by_cases h3 : (count_lt_and_eq C vs st.th).1 ≤ q_max
    · rw [if_pos h3]
      intro _
      refine ⟨rfl, rfl, Or.inr ⟨rfl, ?_, ?_⟩⟩ <;> simp <;> omega
    · rw [if_neg h3]
      intro habs
      rw [bis_resample_hit] at habs
      simp at habs
      rw [habs] at hhit
      cases hhit

theorem bis_step_ok (C : CParams) (vs : List Nat) (q_min q_max : Nat) (st : BisSt) :
    bisOk C vs q_min q_max st → bisOk C vs q_min q_max (bis_step C vs q_min q_max st) := by
  intro h
  unfold bis_step
  by_cases hd : st.done = true
  · rw [if_pos hd]
    exact h
  · rw [if_neg hd]
    have hhit : st.hit = false := by
      cases hh : st.hit
      · rfl
      · exact absurd (h hh).1 hd
    exact bis_decide_ok C vs q_min q_max st hhit

theorem bis_loop_pres (C : CParams) (vs : List Nat) (q_min q_max : Nat)
    (P : BisSt → Prop)
    (hstep : ∀ st, P st → P (bis_step C vs q_min q_max st)) :
    ∀ (fuel : Nat) (st : BisSt), P st → P (bis_loop C vs q_min q_max fuel st) := by
  intro fuel
  induction fuel with
  | zero => intro st h; exact h
  | succ n ih =>
    intro st h
    exact ih _ (hstep st h)

theorem bisFinal_ok (C : CParams) (vs : List Nat) (q_min q_max : Nat) :
    bisOk C vs q_min q_max (bisFinal C vs q_min q_max) := by
  unfold bisFinal
  refine bis_loop_pres C vs q_min q_max _ (bis_step_ok C vs q_min q_max) 200 (bisInit C vs) ?_
  intro habs
  cases habs

theorem bis_decide_q (C : CParams) (vs : List Nat) (q_min q_max : Nat)
    (st : BisSt) (c : Nat × Nat) (hst : st.q ≤ max q_min q_max) :
    (bis_decide C vs q_min q_max st c).q ≤ max q_min q_max := by
  unfold bis_decide
  by_cases h1 : c.1 ≤ q_min
  · rw [if_pos h1]
    by_cases h2 : q_min ≤ c.1 + c.2
    · rw [if_pos h2]
      simp
    · rw [if_neg h2, bis_resample_q]
      exact hst
  · rw [if_neg h1]
    by_cases h3 : c.1 ≤ q_max
    · rw [if_pos h3]
      simp
      omega
    · rw [if_neg h3, bis_resample_q]
      exact hst

theorem bis_step_q (C : CParams) (vs : List Nat) (q_min q_max : Nat) (st : BisSt) :
    st.q ≤ max q_min q_max → (bis_step C vs q_min q_max st).q ≤ max q_min q_max := by
  intro h
  unfold bis_step
  by_cases hd : st.done = true
  · rw [if_pos hd]
    exact h
  · rw [if_neg hd]
    exact bis_decide_q C vs q_min q_max st _ h

theorem bisFinal_q (C : CParams) (vs : List Nat) (q_min q_max : Nat) :
    (bisFinal C vs q_min q_max).q ≤ max q_min q_max := by
  unfold bisFinal
  exact bis_loop_pres C vs q_min q_max _ (bis_step_q C vs q_min q_max) 200 (bisInit C vs)
    (by simp [bisInit])

/-! Invariants of the vectorized binary-search loop. -/

theorem simd_decide_q (C : CParams) (q_min q_max : Nat) (st : SimdSt)
    (th : Nat) (c : Nat × Nat) (hst : st.q ≤ max q_min q_max) :
    (simd_decide C q_min q_max st th c).q ≤ max q_min q_max := by
  unfold simd_decide
  by_cases h1 : c.1 ≤ q_min
  · rw [if_pos h1]
    by_cases h2 : q_min ≤ c.1 + c.2
    · rw [if_pos h2]
      simp
    · rw [if_neg h2]
      split <;> exact hst
  · rw [if_neg h1]
    by_cases h3 : c.1 ≤ q_max
    · rw [if_pos h3]
      simp
      omega
    · rw [if_neg h3]
      split <;> exact hst

theorem simd_step_q (C : CParams) (vs : List Nat) (q_min q_max : Nat) (st : SimdSt) :
    st.q ≤ max q_min q_max → (simd_step C vs q_min q_max st).q ≤ max q_min q_max := by
  intro h
  unfold simd_step
  by_cases hd : st.done = true
  · rw [if_pos hd]
    exact h
  · rw [if_neg hd]
    exact simd_decide_q C q_min q_max st _ _ h

theorem simd_loop_pres (C : CParams) (vs : List Nat) (q_min q_max : Nat)
    (P : SimdSt → Prop)
    (hstep : ∀ st, P st → P (simd_step C vs q_min q_max st)) :
    ∀ (fuel : Nat) (st : SimdSt), P st → P (simd_loop C vs q_min q_max fuel st) := by
  intro fuel
  induction fuel with
  | zero => intro st h; exact h
  | succ n ih =>
    intro st h
    exact ih _ (hstep st h)

theorem simdFinal_q (C : CParams) (vs : List Nat) (q_min q_max s0i s1i : Nat) :
    (simdFinal C vs q_min q_max s0i s1i).q ≤ max q_min q_max := by
  unfold simdFinal
  exact simd_loop_pres C vs q_min q_max _ (simd_step_q C vs q_min q_max) 200 _ (by simp)


/-! Bundle of facts about a non-shortcut scalar run whose bisection
loop reached its target. -/

theorem take_append_len {α : Type} (A B : List α) (n : Nat) (h : A.length = n) :
    (A ++ B).take n = A := by
  subst h
  exact List.take_left A B

theorem keptPairs_leftover (C : CParams) (t : Nat) :
    ∀ (l : List (Nat × Nat)) (b : Nat),
      (keptPairs C t l b).2 =
        b - min (l.countP (fun p => !C.cmp t p.1 && p.1 == t)) b := by
  intro l
  induction l with
  | nil => intro b; simp [keptPairs]
  | cons p rest ih =>
    intro b
    by_cases h1 : C.cmp t p.1
    · have heq : (p :: rest).countP (fun p => !C.cmp t p.1 && p.1 == t) =
          rest.countP (fun p => !C.cmp t p.1 && p.1 == t) := by
        rw [List.countP_cons]
        simp [h1]
      rw [heq]
      simp only [keptPairs, if_pos h1]
      exact ih b
    · have hc : C.cmp t p.1 = false := by simpa using h1
      by_cases h3 : p.1 = t
      · have heq : (p :: rest).countP (fun p => !C.cmp t p.1 && p.1 == t) =
            rest.countP (fun p => !C.cmp t p.1 && p.1 == t) + 1 := by
          have hp2 : (!C.cmp t p.1 && p.1 == t) = true := by
            rw [hc, h3]
            simp
          rw [List.countP_cons, hp2]
          simp
        rw [heq]
        by_cases hb : 0 < b
        · simp only [keptPairs, if_neg h1, if_pos (And.intro hb h3)]
          rw [ih (b - 1)]
          omega
        · have hb0 : b = 0 := by omega
          subst hb0
          simp only [keptPairs, if_neg h1,
            if_neg (by simp : ¬ ((0 : Nat) < 0 ∧ p.1 = t))]
          rw [ih 0]
          omega
      · have heq : (p :: rest).countP (fun p => !C.cmp t p.1 && p.1 == t) =
            rest.countP (fun p => !C.cmp t p.1 && p.1 == t) := by
          rw [List.countP_cons]
          simp [hc, h3]
        rw [heq]
        simp only [keptPairs, if_neg h1, if_neg (by simp [h3] : ¬ (0 < b ∧ p.1 = t))]
        exact ih b

theorem tieCorrect_of_not (C : CParams) (q_min : Nat) (st : BisSt)
    (h : ¬ st.q < st.nlt) : tieCorrect C q_min st = (st.q, st.th, st.q - st.nlt) := by
  unfold tieCorrect
  rw [if_neg h]

/-- Unfolded shape of partitionCore. -/
theorem partitionCore_eq (C : CParams) (vs ids : List Nat) (q_min q_max : Nat) :
    partitionCore C vs ids q_min q_max =
      ⟨(tieCorrect C q_min (bisFinal C vs q_min q_max)).2.1,
       (tieCorrect C q_min (bisFinal C vs q_min q_max)).1,
       (compress_array C vs ids (tieCorrect C q_min (bisFinal C vs q_min q_max)).2.1
         (tieCorrect C q_min (bisFinal C vs q_min q_max)).2.2).vs,
       (compress_array C vs ids (tieCorrect C q_min (bisFinal C vs q_min q_max)).2.1
         (tieCorrect C q_min (bisFinal C vs q_min q_max)).2.2).ids,
       (compress_array C vs ids (tieCorrect C q_min (bisFinal C vs q_min q_max)).2.1
         (tieCorrect C q_min (bisFinal C vs q_min q_max)).2.2).wp,
       (compress_array C vs ids (tieCorrect C q_min (bisFinal C vs q_min q_max)).2.1
         (tieCorrect C q_min (bisFinal C vs q_min q_max)).2.2).bud,
       (bisFinal C vs q_min q_max).hit, false⟩ := by
  unfold partitionCore
  simp only []

theorem partitionCore_hit_bundle (C : CParams) (vs ids : List Nat) (q_min q_max : Nat)
    (hlen : ids.length = vs.length) (hq : q_min ≤ q_max)
    (hhit : (partitionCore C vs ids q_min q_max).hit = true) :
    q_min ≤ (partitionCore C vs ids q_min q_max).q ∧
    (partitionCore C vs ids q_min q_max).q ≤ q_max ∧
    (partitionCore C vs ids q_min q_max).wp = (partitionCore C vs ids q_min q_max).q ∧
    (partitionCore C vs ids q_min q_max).leftover = 0 ∧
    ((partitionCore C vs ids q_min q_max).outVals.take (partitionCore C vs ids q_min q_max).q).zip
        ((partitionCore C vs ids q_min q_max).outIds.take (partitionCore C vs ids q_min q_max).q) =
      (keptPairs C (partitionCore C vs ids q_min q_max).thresh (vs.zip ids)
        ((partitionCore C vs ids q_min q_max).q - (bisFinal C vs q_min q_max).nlt)).1 := by
  rw [partitionCore_eq] at hhit ⊢
  simp only [] at hhit
  have hsthit : (bisFinal C vs q_min q_max).hit = true := hhit
  obtain ⟨hdone, hcount, hdisj⟩ := bisFinal_ok C vs q_min q_max hsthit
  set st := bisFinal C vs q_min q_max with hstdef
  have hcorr : ¬ st.q < st.nlt := by
    rcases hdisj with ⟨h1, h2, h3⟩ | ⟨h1, h2, h3⟩ <;> omega
  have htc : tieCorrect C q_min st = (st.q, st.th, st.q - st.nlt) :=
    tieCorrect_of_not C q_min st hcorr
  rw [htc]
  simp only []
  have hcountP : vs.countP (fun v => C.cmp st.th v) = st.nlt ∧
      vs.countP (fun v => !C.cmp st.th v && v == st.th) = st.neq := by
    have h := count_lt_and_eq_eq C vs st.th
    rw [hcount] at h
    have h' := (Prod.mk.injEq _ _ _ _).mp h.symm
    exact ⟨h'.1, h'.2⟩
  have e1 : (vs.zip ids).countP (fun p => C.cmp st.th p.1) = st.nlt := by
    rw [countP_zip_fst vs ids hlen (fun v => C.cmp st.th v)]
    exact hcountP.1
  have e2 : (vs.zip ids).countP (fun p => !C.cmp st.th p.1 && p.1 == st.th) = st.neq := by
    rw [countP_zip_fst vs ids hlen (fun v => !C.cmp st.th v && v == st.th)]
    exact hcountP.2
  have hcomp := compress_array_spec C st.th vs ids (st.q - st.nlt) hlen
  have hklen : (keptPairs C st.th (vs.zip ids) (st.q - st.nlt)).1.length = st.q := by
    rw [keptPairs_length, e1, e2]
    rcases hdisj with ⟨h1, h2, h3⟩ | ⟨h1, h2, h3⟩ <;> omega
  refine ⟨?_, ?_, ?_, ?_, ?_⟩
  · rcases hdisj with ⟨h1, h2, h3⟩ | ⟨h1, h2, h3⟩ <;> omega
  · have := bisFinal_q C vs q_min q_max
    rw [← hstdef] at this
    omega
  · rw [hcomp]
    exact hklen
  · rw [hcomp]
    simp only []
    rw [keptPairs_leftover, e2]
    rcases hdisj with ⟨h1, h2, h3⟩ | ⟨h1, h2, h3⟩ <;> omega
  · rw [hcomp]
    simp only []
    rw [hklen]
    have hfst : ((keptPairs C st.th (vs.zip ids) (st.q - st.nlt)).1.map Prod.fst ++
        vs.drop st.q).take st.q =
        (keptPairs C st.th (vs.zip ids) (st.q - st.nlt)).1.map Prod.fst :=
      take_append_len _ _ _ (by rw [List.length_map]; exact hklen)
    have hsnd : ((keptPairs C st.th (vs.zip ids) (st.q - st.nlt)).1.map Prod.snd ++
        ids.drop st.q).take st.q =
        (keptPairs C st.th (vs.zip ids) (st.q - st.nlt)).1.map Prod.snd :=
      take_append_len _ _ _ (by rw [List.length_map]; exact hklen)
    rw [hfst, hsnd, zip_map_fst_snd]


/-! Reduction of the entry points to their non-shortcut bodies, and
bounds on the achieved q. -/

theorem partitionRun_nontrivial (C : CParams) (vs ids : List Nat) (q_min q_max : Nat)
    (h0 : ¬ q_min = 0) (hmax : ¬ vs.length ≤ q_max) (h3 : ¬ vs.length < 3) :
    partitionRun C vs ids q_min q_max = partitionCore C vs ids q_min q_max := by
  unfold partitionRun
  rw [if_neg h0, if_neg hmax, if_neg h3]

/-- Unfolded shape of simdCore. -/
theorem simdCore_eq (C : CParams) (vs ids : List Nat) (q_min q_max s0i s1i : Nat) :
    simdCore C vs ids q_min q_max s0i s1i =
      ⟨(simdTieCorrect C q_min (simdFinal C vs q_min q_max s0i s1i)).2.1,
       (simdTieCorrect C q_min (simdFinal C vs q_min q_max s0i s1i)).1,
       (simd_compress_array C vs ids
         (simdTieCorrect C q_min (simdFinal C vs q_min q_max s0i s1i)).2.1
         (simdTieCorrect C q_min (simdFinal C vs q_min q_max s0i s1i)).2.2).vs,
       (simd_compress_array C vs ids
         (simdTieCorrect C q_min (simdFinal C vs q_min q_max s0i s1i)).2.1
         (simdTieCorrect C q_min (simdFinal C vs q_min q_max s0i s1i)).2.2).ids,
       (simd_compress_array C vs ids
         (simdTieCorrect C q_min (simdFinal C vs q_min q_max s0i s1i)).2.1
         (simdTieCorrect C q_min (simdFinal C vs q_min q_max s0i s1i)).2.2).wp,
       (simd_compress_array C vs ids
         (simdTieCorrect C q_min (simdFinal C vs q_min q_max s0i s1i)).2.1
         (simdTieCorrect C q_min (simdFinal C vs q_min q_max s0i s1i)).2.2).bud,
       (simdFinal C vs q_min q_max s0i s1i).hit, false⟩ := by
  unfold simdCore
  simp only []

theorem partitionRun_q_le (C : CParams) (vs ids : List Nat) (q_min q_max : Nat)
    (h0 : 0 < q_min) (hq : q_min ≤ q_max) :
    (partitionRun C vs ids q_min q_max).q ≤ q_max := by
  unfold partitionRun
  rw [if_neg (by omega)]
  by_cases h2 : vs.length ≤ q_max
  · rw [if_pos h2]
  · rw [if_neg h2]
    by_cases h3 : vs.length < 3
    · rw [if_pos h3]
      simp
    · rw [if_neg h3, partitionCore_eq]
      simp only []
      unfold tieCorrect
      by_cases hcorr : (bisFinal C vs q_min q_max).q < (bisFinal C vs q_min q_max).nlt
      · rw [if_pos hcorr]
        simpa using hq
      · rw [if_neg hcorr]
        simp only []
        have := bisFinal_q C vs q_min q_max
        omega

theorem simd_with_bounds_q_le (C : CParams) (vs ids : List Nat)
    (q_min q_max s0i s1i : Nat) (hq : q_min ≤ q_max) :
    (simd_partition_fuzzy_with_bounds C vs ids q_min q_max s0i s1i).q ≤ q_max := by
  unfold simd_partition_fuzzy_with_bounds
  by_cases h0 : q_min = 0
  · rw [if_pos h0]
    simp
  · rw [if_neg h0]
    by_cases h2 : vs.length ≤ q_max
    · rw [if_pos h2]
    · rw [if_neg h2]
      by_cases hs : s0i = s1i
      · rw [if_pos hs]
        simpa using hq
      · rw [if_neg hs, simdCore_eq]
        simp only []
        unfold simdTieCorrect
        by_cases hcorr : (simdFinal C vs q_min q_max s0i s1i).q <
            (simdFinal C vs q_min q_max s0i s1i).nlt
        · rw [if_pos hcorr]
          simpa using hq
        · rw [if_neg hcorr]
          simp only []
          have := simdFinal_q C vs q_min q_max s0i s1i
          omega

theorem simd_partition_fuzzy_q_le (C : CParams) (vs ids : List Nat)
    (q_min q_max : Nat) (hq : q_min ≤ q_max) :
    (simd_partition_fuzzy C vs ids q_min q_max).q ≤ q_max := by
  unfold simd_partition_fuzzy
  exact simd_with_bounds_q_le C vs ids q_min q_max _ _ hq


/-! Remaining helper lemmas for the claim theorems. -/

theorem drop_append_len {α : Type} (A B : List α) (n : Nat) (h : A.length = n) :
    (A ++ B).drop n = B := by
  subst h
  exact List.drop_left A B

theorem compress_array_frame (C : CParams) (vs ids : List Nat) (t b : Nat)
    (hlen : ids.length = vs.length) :
    (compress_array C vs ids t b).vs.drop (compress_array C vs ids t b).wp =
      vs.drop (compress_array C vs ids t b).wp ∧
    (compress_array C vs ids t b).ids.drop (compress_array C vs ids t b).wp =
      ids.drop (compress_array C vs ids t b).wp := by
  rw [compress_array_spec C t vs ids b hlen]
  simp only []
  constructor
  · exact drop_append_len _ _ _ (by rw [List.length_map])
  · exact drop_append_len _ _ _ (by rw [List.length_map])

theorem partitionCore_outLen (C : CParams) (vs ids : List Nat) (q_min q_max : Nat)
    (hlen : ids.length = vs.length) :
    (partitionCore C vs ids q_min q_max).outVals.length = vs.length ∧
    (partitionCore C vs ids q_min q_max).outIds.length = ids.length := by
  rw [partitionCore_eq]
  simp only []
  rw [compress_array_spec C _ vs ids _ hlen]
  simp only []
  have hk : (keptPairs C (tieCorrect C q_min (bisFinal C vs q_min q_max)).2.1 (vs.zip ids)
      (tieCorrect C q_min (bisFinal C vs q_min q_max)).2.2).1.length ≤ vs.length := by
    have h1 := keptPairs_length_le C (tieCorrect C q_min (bisFinal C vs q_min q_max)).2.1
      (vs.zip ids) (tieCorrect C q_min (bisFinal C vs q_min q_max)).2.2
    have h2 : (vs.zip ids).length = vs.length := by
      rw [List.length_zip]
      omega
    omega
  constructor <;> simp <;> omega

theorem simd_partition_fuzzy_no_err (C : CParams) (vs ids : List Nat) (q_min q_max : Nat) :
    (simd_partition_fuzzy C vs ids q_min q_max).err = false := by
  unfold simd_partition_fuzzy simd_partition_fuzzy_with_bounds
  by_cases h0 : q_min = 0
  · rw [if_pos h0]
  · rw [if_neg h0]
    by_cases h2 : vs.length ≤ q_max
    · rw [if_pos h2]
    · rw [if_neg h2]
      by_cases hs : (find_minimax vs).1 = (find_minimax vs).2
      · rw [if_pos hs]
      · rw [if_neg hs, simdCore_eq]


/-! Claim theorems. -/

set_option maxRecDepth 40000

/-- C1 (counterexample): the claimed partition invariant fails as
stated.  For values [5, 1, 9], identifiers [0, 1, 2], q_min = q_max =
1 under the select-smallest policy, the call returns q = 1 and
threshold 5, but position 1 still holds the value 1 (strictly better
than the threshold) because the compress pass only writes the prefix,
and the multiset of (value, identifier) pairs is not preserved: the
pair (5, 0) is lost and (1, 1) is duplicated. -/
theorem C1_claim_counterexample :
    ¬ (1 ≤ (partitionRun CMaxU16 [5, 1, 9] [0, 1, 2] 1 1).q ∧
       (partitionRun CMaxU16 [5, 1, 9] [0, 1, 2] 1 1).q ≤ 1 ∧
       (∀ i < (partitionRun CMaxU16 [5, 1, 9] [0, 1, 2] 1 1).q,
         (partitionRun CMaxU16 [5, 1, 9] [0, 1, 2] 1 1).outVals.getD i 0 ≤
           (partitionRun CMaxU16 [5, 1, 9] [0, 1, 2] 1 1).thresh) ∧
       (∀ i < 3, (partitionRun CMaxU16 [5, 1, 9] [0, 1, 2] 1 1).q ≤ i →
         ¬ (partitionRun CMaxU16 [5, 1, 9] [0, 1, 2] 1 1).outVals.getD i 0 <
             (partitionRun CMaxU16 [5, 1, 9] [0, 1, 2] 1 1).thresh) ∧
       ((partitionRun CMaxU16 [5, 1, 9] [0, 1, 2] 1 1).outVals.zip
           (partitionRun CMaxU16 [5, 1, 9] [0, 1, 2] 1 1).outIds).Perm
         (List.zip [5, 1, 9] [0, 1, 2])) := by
  decide

/-- C1 (amended): for every valid non-shortcut input on which the
bisection loop reaches its target, the call returns q with
q_min <= q <= q_max, the compress pass writes exactly q pairs, the
first q (value, identifier) pairs form a sublist of the original pairs
(so identifiers stay paired with their values), and every kept value
is strictly better than or equal to the returned threshold.  The
original claim's multiset preservation and the condition on the
suffix do not hold: positions at and beyond q keep leftover
pre-compress data. -/
theorem C1_amended_partition_invariant (C : CParams) (vs ids : List Nat)
    (q_min q_max : Nat) (hlen : ids.length = vs.length) (h0 : 0 < q_min)
    (hq : q_min ≤ q_max) (hmax : q_max < vs.length)
    (hhit : (partitionRun C vs ids q_min q_max).hit = true) :
    q_min ≤ (partitionRun C vs ids q_min q_max).q ∧
    (partitionRun C vs ids q_min q_max).q ≤ q_max ∧
    (partitionRun C vs ids q_min q_max).wp = (partitionRun C vs ids q_min q_max).q ∧
    List.Sublist
      (((partitionRun C vs ids q_min q_max).outVals.take
          (partitionRun C vs ids q_min q_max).q).zip
        ((partitionRun C vs ids q_min q_max).outIds.take
          (partitionRun C vs ids q_min q_max).q))
      (vs.zip ids) ∧
    ∀ p ∈ ((partitionRun C vs ids q_min q_max).outVals.take
          (partitionRun C vs ids q_min q_max).q).zip
        ((partitionRun C vs ids q_min q_max).outIds.take
          (partitionRun C vs ids q_min q_max).q),
      C.cmp (partitionRun C vs ids q_min q_max).thresh p.1 = true ∨
        p.1 = (partitionRun C vs ids q_min q_max).thresh := by
  by_cases h3 : vs.length < 3
  · exfalso
    unfold partitionRun at hhit
    rw [if_neg (by omega), if_neg (by omega), if_pos h3] at hhit
    simp at hhit
  · have hred := partitionRun_nontrivial C vs ids q_min q_max (by omega) (by omega) h3
    rw [hred] at hhit ⊢
    obtain ⟨hb1, hb2, hb3, _, hb5⟩ :=
      partitionCore_hit_bundle C vs ids q_min q_max hlen hq hhit
    refine ⟨hb1, hb2, hb3, ?_, ?_⟩
    · rw [hb5]
      exact keptPairs_sublist C _ _ _
    · intro p hp
      rw [hb5] at hp
      exact keptPairs_mem C _ _ _ p hp

/-- C1 (witness): the amended invariant at the concrete scenario of
the specification. -/
theorem C1_amended_witness :
    3 ≤ (partitionRun CMaxU16 [5, 3, 3, 8, 1, 9, 3] [0, 1, 2, 3, 4, 5, 6] 3 3).q ∧
    (partitionRun CMaxU16 [5, 3, 3, 8, 1, 9, 3] [0, 1, 2, 3, 4, 5, 6] 3 3).q ≤ 3 ∧
    (partitionRun CMaxU16 [5, 3, 3, 8, 1, 9, 3] [0, 1, 2, 3, 4, 5, 6] 3 3).wp =
      (partitionRun CMaxU16 [5, 3, 3, 8, 1, 9, 3] [0, 1, 2, 3, 4, 5, 6] 3 3).q ∧
    List.Sublist
      (((partitionRun CMaxU16 [5, 3, 3, 8, 1, 9, 3] [0, 1, 2, 3, 4, 5, 6] 3 3).outVals.take
          (partitionRun CMaxU16 [5, 3, 3, 8, 1, 9, 3] [0, 1, 2, 3, 4, 5, 6] 3 3).q).zip
        ((partitionRun CMaxU16 [5, 3, 3, 8, 1, 9, 3] [0, 1, 2, 3, 4, 5, 6] 3 3).outIds.take
          (partitionRun CMaxU16 [5, 3, 3, 8, 1, 9, 3] [0, 1, 2, 3, 4, 5, 6] 3 3).q))
      (List.zip [5, 3, 3, 8, 1, 9, 3] [0, 1, 2, 3, 4, 5, 6]) ∧
    ∀ p ∈ ((partitionRun CMaxU16 [5, 3, 3, 8, 1, 9, 3] [0, 1, 2, 3, 4, 5, 6] 3 3).outVals.take
          (partitionRun CMaxU16 [5, 3, 3, 8, 1, 9, 3] [0, 1, 2, 3, 4, 5, 6] 3 3).q).zip
        ((partitionRun CMaxU16 [5, 3, 3, 8, 1, 9, 3] [0, 1, 2, 3, 4, 5, 6] 3 3).outIds.take
          (partitionRun CMaxU16 [5, 3, 3, 8, 1, 9, 3] [0, 1, 2, 3, 4, 5, 6] 3 3).q),
      CMaxU16.cmp (partitionRun CMaxU16 [5, 3, 3, 8, 1, 9, 3] [0, 1, 2, 3, 4, 5, 6] 3 3).thresh
          p.1 = true ∨
        p.1 = (partitionRun CMaxU16 [5, 3, 3, 8, 1, 9, 3] [0, 1, 2, 3, 4, 5, 6] 3 3).thresh :=
  C1_amended_partition_invariant CMaxU16 [5, 3, 3, 8, 1, 9, 3] [0, 1, 2, 3, 4, 5, 6] 3 3
    (by decide) (by decide) (by decide) (by decide) (by decide)

/-- C2 (code bug evaluation): partition_fuzzy_median3 with q_min = 0
under the select-largest policy (CMin over uint16) stores
C::Crev::neutral() = 65535 into q_out and returns threshold 0 — the
two output assignments of the shortcut are transposed; the claim (and
the vectorized path, which stores q = 0) require achieved q = 0. -/
theorem C2_qmin_zero_bug :
    (partitionRun CMinU16 [7] [3] 0 0).q = 65535 ∧
    (partitionRun CMinU16 [7] [3] 0 0).thresh = 0 ∧
    ¬ (partitionRun CMinU16 [7] [3] 0 0).q = 0 := by
  decide

/-- C3 (counterexample): in the concrete scenario
values = [5, 3, 3, 8, 1, 9, 3], q = 3, select-smallest, the suffix
after the call is [8, 1, 9, 3], which is not a permutation of the
claimed suffix multiset {5, 8, 9, 3}: the compress pass overwrote the
5 and left a stale 1 behind. -/
theorem C3_claim_counterexample :
    ¬ ((partitionRun CMaxU16 [5, 3, 3, 8, 1, 9, 3] [0, 1, 2, 3, 4, 5, 6] 3 3).q = 3 ∧
       (partitionRun CMaxU16 [5, 3, 3, 8, 1, 9, 3] [0, 1, 2, 3, 4, 5, 6] 3 3).thresh = 3 ∧
       ((partitionRun CMaxU16 [5, 3, 3, 8, 1, 9, 3] [0, 1, 2, 3, 4, 5, 6] 3 3).outVals.take
          3).Perm [1, 3, 3] ∧
       ((partitionRun CMaxU16 [5, 3, 3, 8, 1, 9, 3] [0, 1, 2, 3, 4, 5, 6] 3 3).outVals.drop
          3).Perm [5, 8, 9, 3]) := by
  decide

/-- C3 (amended): the scenario achieves q = 3 with threshold 3 and
prefix multiset {1, 3, 3} as claimed, but the suffix is the leftover
data [8, 1, 9, 3] (the 5 was overwritten and the 1 duplicated), not a
permutation of {5, 8, 9, 3}. -/
theorem C3_amended_scenario :
    (partitionRun CMaxU16 [5, 3, 3, 8, 1, 9, 3] [0, 1, 2, 3, 4, 5, 6] 3 3).q = 3 ∧
    (partitionRun CMaxU16 [5, 3, 3, 8, 1, 9, 3] [0, 1, 2, 3, 4, 5, 6] 3 3).thresh = 3 ∧
    ((partitionRun CMaxU16 [5, 3, 3, 8, 1, 9, 3] [0, 1, 2, 3, 4, 5, 6] 3 3).outVals.take
       3).Perm [1, 3, 3] ∧
    (partitionRun CMaxU16 [5, 3, 3, 8, 1, 9, 3] [0, 1, 2, 3, 4, 5, 6] 3 3).outVals.drop 3 =
      [8, 1, 9, 3] ∧
    (partitionRun CMaxU16 [5, 3, 3, 8, 1, 9, 3] [0, 1, 2, 3, 4, 5, 6] 3 3).outIds =
      [1, 2, 4, 3, 4, 5, 6] := by
  decide

/-- C4 (counterexample): on values [0, 3, 9] with q_min = 1,
q_max = 2 (select-smallest), the vectorized partitioner returns q = 2
with threshold 5 while the scalar partitioner returns q = 1 with
threshold 3: neither the achieved q nor the threshold agree. -/
theorem C4_claim_counterexample :
    ¬ ((simd_partition_fuzzy CMaxU16 [0, 3, 9] [0, 1, 2] 1 2).q =
         (partitionRun CMaxU16 [0, 3, 9] [0, 1, 2] 1 2).q ∧
       (simd_partition_fuzzy CMaxU16 [0, 3, 9] [0, 1, 2] 1 2).thresh =
         (partitionRun CMaxU16 [0, 3, 9] [0, 1, 2] 1 2).thresh) := by
  decide

/-- C4 (amended): the two paths need not agree on the achieved q or
the threshold (the scalar path bisects on sampled data values, the
vectorized path on value-domain midpoints); each path separately keeps
its achieved q within the requested bound q_max. -/
theorem C4_amended_q_bounded (C : CParams) (vs ids : List Nat) (q_min q_max : Nat)
    (h0 : 0 < q_min) (hq : q_min ≤ q_max) :
    (simd_partition_fuzzy C vs ids q_min q_max).q ≤ q_max ∧
    (partitionRun C vs ids q_min q_max).q ≤ q_max :=
  ⟨simd_partition_fuzzy_q_le C vs ids q_min q_max hq,
   partitionRun_q_le C vs ids q_min q_max h0 hq⟩

/-- C4 (witness): the amended bound at the counterexample input. -/
theorem C4_amended_witness :
    (simd_partition_fuzzy CMaxU16 [0, 3, 9] [0, 1, 2] 1 2).q ≤ 2 ∧
    (partitionRun CMaxU16 [0, 3, 9] [0, 1, 2] 1 2).q ≤ 2 :=
  C4_amended_q_bounded CMaxU16 [0, 3, 9] [0, 1, 2] 1 2 (by decide) (by decide)

/-- C5: the histogram drivers raise the configuration error exactly
when the shifted mode is requested (shift >= 0, since a negative shift
selects the unbounded mode) with a shift outside the supported range
0..8; a negative shift never errors, shifts 0..8 never error. -/
theorem C5_histogram_shift_error (data : List Nat) (minv : Nat) (shift : Int) :
    ((simd_histogram_8 data minv shift = Except.error ()) ↔ (0 ≤ shift ∧ 8 < shift)) ∧
    ((simd_histogram_16 data minv shift = Except.error ()) ↔ (0 ≤ shift ∧ 8 < shift)) := by
  unfold simd_histogram_8 simd_histogram_16
  by_cases hneg : shift < 0
  · rw [if_pos hneg, if_pos hneg]
    exact ⟨⟨fun h => by simp at h, fun h => absurd hneg (by omega)⟩,
           ⟨fun h => by simp at h, fun h => absurd hneg (by omega)⟩⟩
  · rw [if_neg hneg, if_neg hneg]
    by_cases hle : shift ≤ 8
    · rw [if_pos hle, if_pos hle]
      exact ⟨⟨fun h => by simp at h, fun h => absurd hle (by omega)⟩,
             ⟨fun h => by simp at h, fun h => absurd hle (by omega)⟩⟩
    · rw [if_neg hle, if_neg hle]
      exact ⟨⟨fun _ => ⟨by omega, by omega⟩, fun _ => rfl⟩,
             ⟨fun _ => ⟨by omega, by omega⟩, fun _ => rfl⟩⟩

/-- C6 (code bug evaluation): for 16 copies of the value 2560 with
min = 0 and shift = 8, every element maps to bucket 10 (outside
0..7), yet the vectorized 8-bin path decodes shuffle-table index 10
into increments of buckets 0 and 2, so the bucket counts sum to 32
while all 16 values are out of range — 32 + 16 = 48 differs from
n = 16, contradicting the claimed total; the 16-bin path and the
scalar tails clip such values as the claim requires. -/
theorem C6_histogram8_shifted_bug :
    simd_histogram_8 (List.replicate 16 2560) 0 8 =
      Except.ok (simd_histogram_8_shifted (List.replicate 16 2560) 0 8) ∧
    (simd_histogram_8_shifted (List.replicate 16 2560) 0 8).sum = 32 ∧
    (List.replicate 16 2560).countP (fun v => decide (8 ≤ mapShift 0 8 v)) = 16 ∧
    ¬ ((simd_histogram_8_shifted (List.replicate 16 2560) 0 8).sum +
        (List.replicate 16 2560).countP (fun v => decide (8 ≤ mapShift 0 8 v)) =
       (List.replicate 16 2560).length) := by
  refine ⟨rfl, ?_, ?_, ?_⟩ <;> decide

/-- C7 (counterexample): exact selection is not idempotent in the
threshold.  On [3, 0, 9] with q = 1 (select-smallest) the first call
returns threshold 3 and rewrites the arrays to [0, 0, 9]; the second
call on the result returns threshold 0. -/
theorem C7_claim_counterexample :
    ¬ ((partitionRun CMaxU16
          (partitionRun CMaxU16 [3, 0, 9] [0, 1, 2] 1 1).outVals
          (partitionRun CMaxU16 [3, 0, 9] [0, 1, 2] 1 1).outIds 1 1).q =
         (partitionRun CMaxU16 [3, 0, 9] [0, 1, 2] 1 1).q ∧
       (partitionRun CMaxU16
          (partitionRun CMaxU16 [3, 0, 9] [0, 1, 2] 1 1).outVals
          (partitionRun CMaxU16 [3, 0, 9] [0, 1, 2] 1 1).outIds 1 1).thresh =
         (partitionRun CMaxU16 [3, 0, 9] [0, 1, 2] 1 1).thresh) := by
  decide

/-- C7 (amended): when both exact calls reach their bisection target,
both achieve exactly the requested q (so the achieved q is unchanged
by the second call); the returned threshold may differ between the
calls. -/
theorem C7_amended_exact_q (C : CParams) (vs ids : List Nat) (q : Nat)
    (hlen : ids.length = vs.length) (h0 : 0 < q) (hmax : q < vs.length)
    (hhit1 : (partitionRun C vs ids q q).hit = true)
    (hhit2 : (partitionRun C (partitionRun C vs ids q q).outVals
        (partitionRun C vs ids q q).outIds q q).hit = true) :
    (partitionRun C vs ids q q).q = q ∧
    (partitionRun C (partitionRun C vs ids q q).outVals
        (partitionRun C vs ids q q).outIds q q).q = q := by
  by_cases h3 : vs.length < 3
  · exfalso
    unfold partitionRun at hhit1
    rw [if_neg (by omega), if_neg (by omega), if_pos h3] at hhit1
    simp at hhit1
  · have hred := partitionRun_nontrivial C vs ids q q (by omega) (by omega) h3
    rw [hred] at hhit1 ⊢
    obtain ⟨hb1, hb2, _, _, _⟩ := partitionCore_hit_bundle C vs ids q q hlen (le_refl q) hhit1
    have hq1 : (partitionCore C vs ids q q).q = q := by omega
    refine ⟨hq1, ?_⟩
    have houtlen := partitionCore_outLen C vs ids q q hlen
    have hlen2 : (partitionCore C vs ids q q).outIds.length =
        (partitionCore C vs ids q q).outVals.length := by omega
    by_cases h3b : (partitionCore C vs ids q q).outVals.length < 3
    · exfalso
      rw [hred] at hhit2
      unfold partitionRun at hhit2
      rw [if_neg (by omega), if_neg (by omega), if_pos h3b] at hhit2
      simp at hhit2
    · rw [hred] at hhit2
      have hred2 := partitionRun_nontrivial C (partitionCore C vs ids q q).outVals
        (partitionCore C vs ids q q).outIds q q (by omega) (by omega) h3b
      rw [hred2] at hhit2 ⊢
      obtain ⟨hc1, hc2, _, _, _⟩ := partitionCore_hit_bundle C
        (partitionCore C vs ids q q).outVals (partitionCore C vs ids q q).outIds q q
        hlen2 (le_refl q) hhit2
      omega

/-- C7 (witness): both runs on [3, 0, 9] with q = 1 reach their
target and achieve q = 1. -/
theorem C7_amended_witness :
    (partitionRun CMaxU16 [3, 0, 9] [0, 1, 2] 1 1).q = 1 ∧
    (partitionRun CMaxU16
        (partitionRun CMaxU16 [3, 0, 9] [0, 1, 2] 1 1).outVals
        (partitionRun CMaxU16 [3, 0, 9] [0, 1, 2] 1 1).outIds 1 1).q = 1 :=
  C7_amended_exact_q CMaxU16 [3, 0, 9] [0, 1, 2] 1
    (by decide) (by decide) (by decide) (by decide) (by decide)

/-- C8 (counterexample): the driver does not fail loudly on every
n < 3 non-shortcut call: for the vectorized-eligible input [3, 7]
(n = 2, q_min = q_max = 1, neither shortcut applies) the vectorized
path runs without any n >= 3 check and succeeds. -/
theorem C8_claim_counterexample :
    (partition_fuzzy_u16 CMaxU16 true [3, 7] [0, 1] 1 1).err = false ∧
    ([3, 7] : List Nat).length < 3 ∧ (0 : Nat) < 1 ∧
    1 < ([3, 7] : List Nat).length ∧
    (partition_fuzzy_u16 CMaxU16 true [3, 7] [0, 1] 1 1).q = 1 := by
  decide

/-- C8 (amended): the scalar partitioner throws exactly when n < 3
and the call does not qualify for a trivial shortcut (q_min > 0 and
q_max < n); the vectorized path performs no such check and never
throws. -/
theorem C8_amended_error_iff (C : CParams) (vs ids : List Nat) (q_min q_max : Nat) :
    ((partitionRun C vs ids q_min q_max).err = true ↔
      (0 < q_min ∧ q_max < vs.length ∧ vs.length < 3)) ∧
    (partition_fuzzy_u16 C true vs ids q_min q_max).err = false := by
  constructor
  · unfold partitionRun
    by_cases h0 : q_min = 0
    · rw [if_pos h0]
      simp
      omega
    · rw [if_neg h0]
      by_cases h2 : vs.length ≤ q_max
      · rw [if_pos h2]
        simp
        omega
      · rw [if_neg h2]
        by_cases h3 : vs.length < 3
        · rw [if_pos h3]
          simp
          omega
        · rw [if_neg h3, partitionCore_eq]
          simp
          omega
  · unfold partition_fuzzy_u16
    rw [if_pos rfl]
    exact simd_partition_fuzzy_no_err C vs ids q_min q_max

/-- C9 (code bug evaluation): on values
[1, 65535, 65534, 65535, 65534] with q_min = q_max = 4
(select-smallest), the bisection interval is exhausted (65535 equals
the sentinel thresh_sup and is never sampled), the tie-correction
fires with threshold stepped to 65533, and the compress pass keeps
only 1 element while q = 4 with an unconsumed equal budget of 4: both
internal assertions (n_eq == 0 in compress_array and wp == q) are
violated on a valid input. -/
theorem C9_assert_violation :
    (partitionRun CMaxU16 [1, 65535, 65534, 65535, 65534] [10, 11, 12, 13, 14] 4 4).q = 4 ∧
    (partitionRun CMaxU16 [1, 65535, 65534, 65535, 65534] [10, 11, 12, 13, 14] 4 4).wp = 1 ∧
    (partitionRun CMaxU16 [1, 65535, 65534, 65535, 65534] [10, 11, 12, 13, 14] 4 4).leftover
      = 4 ∧
    ¬ ((partitionRun CMaxU16 [1, 65535, 65534, 65535, 65534] [10, 11, 12, 13, 14] 4 4).wp =
       (partitionRun CMaxU16 [1, 65535, 65534, 65535, 65534] [10, 11, 12, 13, 14] 4 4).q) := by
  decide

/-- C10 (counterexample): positions at index >= q are not always
left with their pre-compress contents.  On [7, 0, 7, 0, 0] with
q_min = q_max = 1 (select-smallest) the run ends with q = 1 but the
compress pass keeps 3 elements, overwriting position 2 (>= q) with 0
where the array held 7 before the (only mutating) compress pass. -/
theorem C10_claim_counterexample :
    (partitionRun CMaxU16 [7, 0, 7, 0, 0] [0, 1, 2, 3, 4] 1 1).q = 1 ∧
    ¬ ((partitionRun CMaxU16 [7, 0, 7, 0, 0] [0, 1, 2, 3, 4] 1 1).outVals.getD 2 0 =
       ([7, 0, 7, 0, 0] : List Nat).getD 2 0) := by
  decide

/-- C10 (amended): the compress pass writes only positions below the
count wp it actually keeps: both arrays agree with their pre-compress
contents from index wp on.  (wp coincides with the returned q exactly
on runs whose bisection loop reached its target.) -/
theorem C10_amended_compress_frame (C : CParams) (vs ids : List Nat) (t b : Nat)
    (hlen : ids.length = vs.length) :
    (compress_array C vs ids t b).vs.drop (compress_array C vs ids t b).wp =
      vs.drop (compress_array C vs ids t b).wp ∧
    (compress_array C vs ids t b).ids.drop (compress_array C vs ids t b).wp =
      ids.drop (compress_array C vs ids t b).wp :=
  compress_array_frame C vs ids t b hlen

/-- C10 (witness): the frame property at a concrete compress call. -/
theorem C10_amended_witness :
    (compress_array CMaxU16 [5, 1, 9] [0, 1, 2] 5 0).vs.drop
        (compress_array CMaxU16 [5, 1, 9] [0, 1, 2] 5 0).wp =
      ([5, 1, 9] : List Nat).drop (compress_array CMaxU16 [5, 1, 9] [0, 1, 2] 5 0).wp ∧
    (compress_array CMaxU16 [5, 1, 9] [0, 1, 2] 5 0).ids.drop
        (compress_array CMaxU16 [5, 1, 9] [0, 1, 2] 5 0).wp =
      ([0, 1, 2] : List Nat).drop (compress_array CMaxU16 [5, 1, 9] [0, 1, 2] 5 0).wp :=
  C10_amended_compress_frame CMaxU16 [5, 1, 9] [0, 1, 2] 5 0 (by decide)

end Faiss
